import Mathlib

/-!
Verification of the expression/placeholder composition core of the `sq`
fluent SQL-generation library (Go).  The Go source is shallowly embedded:

* Go `interface{}` bind values are modelled by the inductive `Val`
  (scalars, `nil`, slices/arrays, pointers, `driver.Valuer` adapters).
* Go fragments (`SQLizer` values) are modelled by the mutual inductive
  `Frag`; `Arg` is a bind argument (plain value or nested fragment).
* A Go slice of arguments is modelled by `GoSlice := Option ArgList`,
  keeping the distinction between a `nil` slice (`none`) and an allocated
  empty slice (`some .nil`); `gappend` models Go's variadic `append`,
  which leaves a `nil` slice `nil` when zero elements are appended.
* `ToSQL` methods return the Go triple `(sql, args, err)` as
  `String × GoSlice × Option String` (an `error` is its message string).
-/

namespace sq

/-- Portable true literal (`sqlTrue` in expr.go). -/
def sqlTrue : String := "(1=1)"

/-- Portable false literal (`sqlFalse` in expr.go). -/
def sqlFalse : String := "(1=0)"

/-- A Go bind value (`interface{}`), as far as the rendering code inspects
it: scalar ints and strings, `[]byte` (a `driver.Value`, hence never a
list), untyped `nil`, slices/arrays, typed pointers (`vptr none` is a
typed nil pointer, which is *not* the untyped `nil` interface), and
`driver.Valuer` adapters whose `Value()` call yields a value or an error. -/
inductive Val where
  | vint (n : Int)
  | vstr (s : String)
  | vbytes (s : String)
  | vnull
  | vlist (vs : List Val)
  | vptr (p : Option Val)
  | valuer (r : Except String Val)

/-- `isListType` from expr.go: `driver.IsValue` values (scalars, `[]byte`,
`nil`) are not lists; only reflect kinds Array/Slice are. A pointer has
kind Ptr, hence is not a list. -/
def isListType : Val → Bool
  | .vlist _ => true
  | _ => false

/-- The `driver.Valuer` type switch that opens `Eq.toSQL`, `Like.toSQL`
and `Lt.toSQL`: a `Valuer` is replaced by the result of its `Value()`
call (which may fail); every other value passes through unchanged. -/
def unwrapValuer : Val → Except String Val
  | .valuer r => r
  | v => .ok v

mutual
/-- A fragment (`SQLizer` implementation) of the sq core: `expr` is the
raw-text expression, the map constructors carry the predicate map as an
association list (a Go map plus one admissible `range` iteration order;
Go guarantees no particular order), `andF`/`orF` are the conjunctions and
`caseF` the CASE construct (`caseData`).  `newPart` wrapping of a `SQLizer`
child delegates straight to the child's `ToSQL` via `nestedToSQL`, so CASE
children are held directly as fragments. -/
inductive Frag where
  | expr (sql : String) (args : OptArgs)
  | eqF (m : List (String × Val))
  | notEqF (m : List (String × Val))
  | likeF (m : List (String × Val))
  | notLikeF (m : List (String × Val))
  | ilikeF (m : List (String × Val))
  | notIlikeF (m : List (String × Val))
  | ltF (m : List (String × Val))
  | ltOrEqF (m : List (String × Val))
  | gtF (m : List (String × Val))
  | gtOrEqF (m : List (String × Val))
  | andF (fs : FragList)
  | orF (fs : FragList)
  | caseF (what : OptFrag) (whens : WhenList) (els : OptFrag)

/-- One bind argument: a plain value or a nested fragment. -/
inductive Arg where
  | val (v : Val)
  | frag (f : Frag)

/-- A list of bind arguments (spelled out so that the rendering functions
are mutually structurally recursive with `Frag`). -/
inductive ArgList where
  | nil
  | cons (a : Arg) (rest : ArgList)

/-- The argument slice held by an `expr` (a Go `[]interface{}`): `noneA`
is the nil slice (e.g. `Expr("x")` with no variadic arguments), `someA`
an allocated slice. -/
inductive OptArgs where
  | noneA
  | someA (l : ArgList)

/-- A list of conjunction children. -/
inductive FragList where
  | nil
  | cons (f : Frag) (rest : FragList)

/-- An optional fragment (`What`/`Else` of `caseData`, which are nil-able). -/
inductive OptFrag where
  | none
  | some (f : Frag)

/-- The `WhenParts` list of `caseData`: WHEN/THEN fragment pairs. -/
inductive WhenList where
  | nil
  | cons (w : Frag) (t : Frag) (rest : WhenList)
end

/-- A Go `[]interface{}` slice: `none` is the nil slice, `some l` an
allocated slice with contents `l`. -/
def GoSlice : Type := Option ArgList

instance : Inhabited GoSlice := ⟨Option.none⟩

/-- The elements of a Go slice (a nil slice ranges over nothing). -/
def GoSlice.elts : GoSlice → ArgList := fun s => s.getD .nil

/-- The argument slice of an `expr`, as a `GoSlice`. -/
def OptArgs.toSlice : OptArgs → GoSlice
  | .noneA => Option.none
  | .someA l => Option.some l

def ArgList.append : ArgList → ArgList → ArgList
  | .nil, ys => ys
  | .cons a xs, ys => .cons a (xs.append ys)

def ArgList.toList : ArgList → List Arg
  | .nil => []
  | .cons a xs => a :: xs.toList

def ArgList.ofList : List Arg → ArgList
  | [] => .nil
  | a :: xs => .cons a (ofList xs)

def ArgList.length : ArgList → Nat
  | .nil => 0
  | .cons _ xs => xs.length + 1

/-- Whether any argument is a nested fragment (the `simple` scan at the
top of `expr.ToSQL`, which checks every argument with a type assertion). -/
def ArgList.hasFrag : ArgList → Bool
  | .nil => false
  | .cons (.frag _) _ => true
  | .cons (.val _) rest => rest.hasFrag

/-- Go's variadic `append(s, xs...)`: appending zero elements returns the
slice unchanged (a nil slice stays nil); appending to a nil slice
allocates. -/
def gappend (s : GoSlice) (xs : ArgList) : GoSlice :=
  match xs with
  | .nil => s
  | xs => match s with
    | Option.none => Option.some xs
    | Option.some l => Option.some (l.append xs)

/-- The result triple of a `ToSQL` call: (sql, args, err). -/
def Res : Type := String × GoSlice × Option String

/-- `getSortedKeys` from expr.go: collect the map's keys and sort them
(`sort.Strings`; any correct sort of strings yields the same list). -/
def getSortedKeys (m : List (String × Val)) : List String :=
  List.insertionSort (· ≤ ·) (m.map Prod.fst)

/-- Go map indexing `m[key]`; the rendering loops only index keys obtained
from the map itself, so the default is never reached there. -/
def lookupVal (m : List (String × Val)) (k : String) : Val :=
  ((m.find? (fun p => p.1 == k)).map Prod.snd).getD .vnull

/-- Modelled from the spec: the `Placeholders` helper lives in a source
file that is not part of src/ (only its caller `Eq.toSQL` is).  The spec
says a non-empty list value renders `column (NOT) IN (<one marker per
element>)`, and the repository's tests pin the rendering `(?,?,?)`:
one `?` marker per element, comma-separated. -/
def Placeholders : Nat → String
  | 0 => ""
  | 1 => "?"
  | Nat.succ (Nat.succ n) => "?," ++ Placeholders (n + 1)

/-- Wrap a list of plain values as arguments (the per-element append in
the `IN` branch of `Eq.toSQL`). -/
def ArgList.ofVals (vs : List Val) : ArgList :=
  ArgList.ofList (vs.map Arg.val)

/-- The per-key loop of `Eq.toSQL(useNotOpr)` over the sorted keys.
State: `exprs` (the per-column clauses so far) and `args` (the bound
arguments so far, a Go slice that starts nil). -/
def eqLoop (useNot : Bool) (m : List (String × Val)) :
    List String → List String → GoSlice → Res
  | [], exprs, args => (String.intercalate " AND " exprs, args, Option.none)
  | key :: rest, exprs, args =>
    let equalOpr := if useNot then "<>" else "="
    let inOpr := if useNot then "NOT IN" else "IN"
    let nullOpr := if useNot then "IS NOT" else "IS"
    let inEmptyExpr := if useNot then sqlTrue else sqlFalse
    match unwrapValuer (lookupVal m key) with
    | .error e => ("", args, Option.some e)
    | .ok v0 =>
      -- reflect-based pointer unwrap: nil pointer becomes nil, else referent
      let v : Val := match v0 with
        | .vptr Option.none => .vnull
        | .vptr (Option.some x) => x
        | x => x
      match v with
      | .vnull =>
        eqLoop useNot m rest (exprs ++ [key ++ " " ++ nullOpr ++ " NULL"]) args
      | .vlist vs =>
        if vs.length = 0 then
          eqLoop useNot m rest (exprs ++ [inEmptyExpr])
            (match args with | Option.none => Option.some .nil | s => s)
        else
          eqLoop useNot m rest
            (exprs ++ [key ++ " " ++ inOpr ++ " (" ++ Placeholders vs.length ++ ")"])
            (gappend args (ArgList.ofVals vs))
      | v =>
        eqLoop useNot m rest (exprs ++ [key ++ " " ++ equalOpr ++ " ?"])
          (gappend args (.cons (.val v) .nil))

/-- `Eq.toSQL(useNotOpr)` from expr.go: empty map renders the true
literal (named returns: `args` stays the nil slice); otherwise the keys
are visited in sorted order. -/
def eqToSQL (useNot : Bool) (m : List (String × Val)) : Res :=
  if m.length = 0 then (sqlTrue, Option.none, Option.none)
  else eqLoop useNot m (getSortedKeys m) [] Option.none

/-- The per-key loop of `Lt.toSQL`: note there is no pointer unwrap here
(unlike `Eq.toSQL`), and null / list values are rejected. -/
def ltLoop (opr : String) (m : List (String × Val)) :
    List String → List String → GoSlice → Res
  | [], exprs, args => (String.intercalate " AND " exprs, args, Option.none)
  | key :: rest, exprs, args =>
    match unwrapValuer (lookupVal m key) with
    | .error e => ("", args, Option.some e)
    | .ok v =>
      match v with
      | .vnull =>
        ("", args, Option.some "cannot use null with less than or greater than operators")
      | v =>
        if isListType v then
          ("", args, Option.some "cannot use array or slice with less than or greater than operators")
        else
          ltLoop opr m rest (exprs ++ [key ++ " " ++ opr ++ " ?"])
            (gappend args (.cons (.val v) .nil))

/-- `Lt.toSQL(opposite, orEq)` from expr.go; also serves `LtOrEq`, `Gt`
and `GtOrEq` with the two flags. -/
def ltToSQL (opposite orEq : Bool) (m : List (String × Val)) : Res :=
  ltLoop ((if opposite then ">" else "<") ++ (if orEq then "=" else "")) m
    (getSortedKeys m) [] Option.none

/-- The per-entry loop of `Like.toSQL(opr)`: the Go code ranges directly
over the map (`for key, val := range lk`), so the entries are visited in
whatever order the map iteration yields — here, the association-list
order. Null and list values are rejected. -/
def likeLoop (opr : String) :
    List (String × Val) → List String → GoSlice → Res
  | [], exprs, args => (String.intercalate " AND " exprs, args, Option.none)
  | (key, val) :: rest, exprs, args =>
    match unwrapValuer val with
    | .error e => ("", args, Option.some e)
    | .ok v =>
      match v with
      | .vnull => ("", args, Option.some "cannot use null with like operators")
      | v =>
        if isListType v then
          ("", args, Option.some "cannot use array or slice with like operators")
        else
          likeLoop opr rest (exprs ++ [key ++ " " ++ opr ++ " ?"])
            (gappend args (.cons (.val v) .nil))

/-- `Like.toSQL(opr)` from expr.go; also serves `NotLike`, `ILike` and
`NotILike` with the operator string. -/
def likeToSQL (opr : String) (m : List (String × Val)) : Res :=
  likeLoop opr m [] Option.none

/-- A pre-rendered argument of the placeholder scan in `expr.ToSQL`:
a plain argument, or a nested-fragment argument paired with the result of
its (pure, hence order-independent) `ToSQL` call. -/
inductive PreArg where
  | plain (a : Arg)
  | rendered (a : Arg) (r : Res)

def PreArg.arg : PreArg → Arg
  | .plain a => a
  | .rendered a _ => a

/-- The scanning loop of `expr.ToSQL` (the non-`simple` path), char by
char.  `sp` is the remaining text, `ap` the pending arguments, `buf` the
output text and `out` the output argument slice (named return `args`,
which starts nil).  Matches the Go loop exactly:
* pending arguments exhausted → the loop breaks and the remaining text is
  appended verbatim (`buf.WriteString(sp)`);
* text exhausted → the loop breaks and the pending arguments are appended
  (`append(args, ap...)`);
* an escaped `??` is copied verbatim, consuming no argument;
* at a single `?`, a fragment argument's rendering is spliced in place of
  the marker and its arguments appended — on a render error the loop
  exits with that error after appending the remaining text and pending
  arguments (Go checks `err == nil` at the top of the next iteration, and
  after the loop still runs `buf.WriteString(sp)` and `append(args, ap...)`);
  a plain argument keeps the marker and is appended to `out`. -/
def exprScan : List Char → List PreArg → String → GoSlice → Res
  | sp, [], buf, out => (buf ++ String.mk sp, out, Option.none)
  | [], ap, buf, out =>
    (buf, gappend out (ArgList.ofList (ap.map PreArg.arg)), Option.none)
  | '?' :: '?' :: rest, ap, buf, out => exprScan rest ap (buf ++ "??") out
  | '?' :: rest, pa :: ap', buf, out =>
    match pa with
    | .rendered _ (isql, iargs, Option.some e) =>
      (buf ++ isql ++ String.mk rest,
       gappend (gappend out iargs.elts) (ArgList.ofList (ap'.map PreArg.arg)),
       Option.some e)
    | .rendered _ (isql, iargs, Option.none) =>
      exprScan rest ap' (buf ++ isql) (gappend out iargs.elts)
    | .plain a => exprScan rest ap' (buf ++ "?") (gappend out (.cons a .nil))
  | c :: rest, ap, buf, out => exprScan rest ap (buf ++ String.mk [c]) out

/-- The state of a `sqlizerBuffer` (case.go): accumulated text, argument
slice, and sticky first error. -/
structure SB where
  buf : String
  args : GoSlice
  err : Option String

/-- `sqlizerBuffer.WriteString`: the embedded `bytes.Buffer` write, which
is unconditional (it does not look at the sticky error). -/
def writeString (b : SB) (s : String) : SB :=
  { b with buf := b.buf ++ s }

/-- `sqlizerBuffer.WriteSQL`, given the (pure) render result of the item:
a no-op when an error is already recorded; records the item's error;
otherwise writes the text plus a space and appends the arguments. -/
def writeSQLRes (b : SB) (r : Res) : SB :=
  if b.err.isSome then b
  else
    match r with
    | (_, _, Option.some e) => { b with err := Option.some e }
    | (s, a, Option.none) =>
      { buf := b.buf ++ s ++ " ", args := gappend b.args a.elts, err := Option.none }

/-- The tail of `conj.join` after the loop: children whose rendered text
is empty contribute neither text nor arguments; the surviving texts are
joined with the separator and parenthesized only if at least one child
survived (named returns start as `sql = ""`, `args = nil`). On a child
error the whole join returns `("", nil, err)`. -/
def conjFinish (r : Except String (List (String × GoSlice))) (sep : String) : Res :=
  match r with
  | .error e => ("", Option.none, Option.some e)
  | .ok l =>
    let parts := (l.filter (fun p => p.1 != "")).map Prod.fst
    let args := l.foldl (fun acc p => if p.1 != "" then gappend acc p.2.elts else acc)
      (Option.none : GoSlice)
    (if parts.isEmpty then "" else "(" ++ String.intercalate sep parts ++ ")",
     args, Option.none)

mutual
/-- `ToSQL` of a fragment: dispatches exactly as the Go methods do.
`expr.ToSQL` takes the `simple` fast path when no argument is a fragment;
otherwise it runs the placeholder scan (nested fragments are pre-rendered,
which agrees with the source's in-loop calls because rendering is pure).
`And`/`Or` go through `conj.join` and `caseF` through `caseData.ToSQL`
(there are no `rawSQLizer`s here, so `nestedToSQL` is plain `ToSQL`). -/
def fragToSQL : Frag → Res
  | .expr sql args =>
    match args with
    | .noneA => (sql, Option.none, Option.none)
    | .someA l =>
      if l.hasFrag = false then (sql, Option.some l, Option.none)
      else exprScan sql.data (renderPre l) "" Option.none
  | .eqF m => eqToSQL false m
  | .notEqF m => eqToSQL true m
  | .likeF m => likeToSQL "LIKE" m
  | .notLikeF m => likeToSQL "NOT LIKE" m
  | .ilikeF m => likeToSQL "ILIKE" m
  | .notIlikeF m => likeToSQL "NOT ILIKE" m
  | .ltF m => ltToSQL false false m
  | .ltOrEqF m => ltToSQL false true m
  | .gtF m => ltToSQL true false m
  | .gtOrEqF m => ltToSQL true true m
  | .andF fs =>
    match fs with
    | .nil => (sqlTrue, Option.some .nil, Option.none)
    | .cons f rest => conjFinish (conjRender (.cons f rest)) " AND "
  | .orF fs =>
    match fs with
    | .nil => (sqlFalse, Option.some .nil, Option.none)
    | .cons f rest => conjFinish (conjRender (.cons f rest)) " OR "
  | .caseF what whens els =>
    match whens with
    | .nil => ("", Option.none,
        Option.some "case expression must contain at lease one WHEN clause")
    | .cons w t rest =>
      let b1 := caseWhat what { buf := "CASE ", args := Option.none, err := Option.none }
      let b2 := caseWhens (.cons w t rest) b1
      let b3 := caseElse els b2
      let b4 := writeString b3 "END"
      (b4.buf, b4.args, b4.err)

/-- Pre-render the nested-fragment arguments of an `expr` (pure, so this
matches the lazy in-loop `as.ToSQL()` calls of the source). -/
def renderPre : ArgList → List PreArg
  | .nil => []
  | .cons (.val v) rest => .plain (.val v) :: renderPre rest
  | .cons (.frag f) rest => .rendered (.frag f) (fragToSQL f) :: renderPre rest

/-- The loop of `conj.join`: render each child in order, stopping at the
first error; collect the (sql, args) pairs of all children. -/
def conjRender : FragList → Except String (List (String × GoSlice))
  | .nil => .ok []
  | .cons f rest =>
    match fragToSQL f with
    | (_, _, Option.some e) => .error e
    | (s, a, Option.none) =>
      match conjRender rest with
      | .error e => .error e
      | .ok l => .ok ((s, a) :: l)

/-- `CASE <what>` rendering: optional, skipped when absent. -/
def caseWhat : OptFrag → SB → SB
  | .none, b => b
  | .some f, b => writeSQLRes b (fragToSQL f)

/-- The WHEN/THEN loop of `caseData.ToSQL`: `WriteString("WHEN ")` and
`WriteString("THEN ")` are unconditional buffer writes; the two
`WriteSQL`s are sticky-error-aware. -/
def caseWhens : WhenList → SB → SB
  | .nil, b => b
  | .cons w t rest, b =>
    caseWhens rest
      (writeSQLRes (writeString (writeSQLRes (writeString b "WHEN ") (fragToSQL w)) "THEN ")
        (fragToSQL t))

/-- `ELSE` rendering: optional, skipped when absent. -/
def caseElse : OptFrag → SB → SB
  | .none, b => b
  | .some f, b => writeSQLRes (writeString b "ELSE ") (fragToSQL f)
end

/-- Count of non-escaped `?` markers in a text, scanning left to right
with `??` treated as a single escaped pair (the scanning discipline shared
by `expr.ToSQL` and `DebugSQLizer`). -/
def countUnesc : List Char → Nat
  | [] => 0
  | '?' :: '?' :: rest => countUnesc rest
  | '?' :: rest => countUnesc rest + 1
  | _ :: rest => countUnesc rest

def ArgList.getIdx : ArgList → Nat → Arg
  | .nil, _ => .val .vnull
  | .cons a _, 0 => a
  | .cons _ rest, Nat.succ n => rest.getIdx n

/-- Go's `%#v` of a string: the string in Go double-quoted syntax.  The
common escapes are modelled; other control characters (which Go renders
with numeric escapes) do not occur in the rendered SQL of this model. -/
def goQuote (s : String) : String :=
  "\"" ++ String.join (s.data.map (fun c =>
    if c = '"' then "\\\"" else if c = '\\' then "\\\\"
    else if c = '\n' then "\\n" else if c = '\t' then "\\t"
    else String.mk [c])) ++ "\""

/-- Go's `%v` of a bind value, as far as the debug renderer displays it:
ints and strings as themselves, nil as `<nil>`.  The remaining variants
print runtime representations (byte lists, addresses, dynamic values)
that no theorem below depends on; they are given fixed nominal forms. -/
def valDisplay : Val → String
  | .vint n => toString n
  | .vstr s => s
  | .vbytes _ => "<bytes>"
  | .vnull => "<nil>"
  | .vlist _ => "<list>"
  | .vptr _ => "<ptr>"
  | .valuer _ => "<valuer>"

/-- `%v` of an argument: a nested fragment prints its Go struct
representation, never inspected by any theorem below. -/
def argDisplay : Arg → String
  | .val v => valDisplay v
  | .frag _ => "<fragment>"

/-- The interpolation loop of `DebugSQLizer`, char by char.  `seg` holds
the characters scanned since the last marker handled (in Go these stay in
the `sql` variable until `buf.WriteString(sql[:p])` runs), so the
diagnostic messages can quote exactly the remaining text the Go code
quotes with `%#v`.  The Go source's inner `if len(sql[p:]) == 1 break`
inside the escape branch is unreachable (that branch requires
`len(sql[p:]) > 1`) and is omitted. -/
def debugScan : List Char → ArgList → Nat → String → List Char → String
  | [], args, i, buf, seg =>
    if i < args.length then
      "[DebugSQLizer error: not enough placeholders in " ++
        (goQuote (String.mk seg) ++ (" for " ++ (toString args.length ++ " args]")))
    else buf ++ String.mk seg
  | '?' :: '?' :: rest, args, i, buf, seg =>
    debugScan rest args i (buf ++ String.mk seg ++ "?") []
  | '?' :: rest, args, i, buf, seg =>
    if i + 1 > args.length then
      "[DebugSQLizer error: too many placeholders in " ++
        (goQuote (String.mk (seg ++ '?' :: rest)) ++
          (" for " ++ (toString args.length ++ " args]")))
    else
      debugScan rest args (i + 1)
        (buf ++ String.mk seg ++ "'" ++ argDisplay (args.getIdx i) ++ "'") []
  | c :: rest, args, i, buf, seg => debugScan rest args i buf (seg ++ [c])

/-- `DebugSQLizer`: render, report a render error inline, else
interpolate the bound arguments back into the marker positions.  None of
the fragments modelled here implements `placeholderDebugger`, so the
marker searched for is `"?"`. -/
def DebugSQLizer (f : Frag) : String :=
  match fragToSQL f with
  | (_, _, Option.some e) => "[ToSQL error: " ++ e ++ "]"
  | (sql, args, Option.none) => debugScan sql.data args.elts 0 "" []

/-- The elements held by an `expr`'s argument slice. -/
def OptArgs.elts : OptArgs → ArgList
  | .noneA => .nil
  | .someA l => l

/-! ## Helper lemmas -/

/-- `Placeholders n` contains exactly `n` non-escaped markers. -/
theorem countUnesc_Placeholders : ∀ n, countUnesc (Placeholders n).data = n := by
  intro n
  induction n using Nat.strong_induction_on with
  | _ n ih =>
    match n with
    | 0 => rfl
    | 1 => rfl
    | Nat.succ (Nat.succ m) =>
      have h := ih (m + 1) (by omega)
      show countUnesc (("?," ++ Placeholders (m + 1)).data) = m + 2
      rw [String.data_append]
      show countUnesc ('?' :: ',' :: (Placeholders (m + 1)).data) = m + 2
      simp only [countUnesc, h]

/-- Joining a one-element list inserts no separator. -/
theorem intercalate_singleton (sep s : String) : String.intercalate sep [s] = s :=
  rfl

/-- `String.mk` turns list append into string append. -/
theorem mk_append (a b : List Char) : String.mk (a ++ b) = String.mk a ++ String.mk b :=
  rfl

/-- Strings with the same character data are equal. -/
theorem strext (a b : String) (h : a.data = b.data) : a = b := by
  cases a with
  | mk da => cases b with
    | mk db => exact congrArg String.mk h

/-- The scan copies marker-free text verbatim into the buffer, consuming
no argument. -/
theorem exprScan_skip_plain (pre : List Char) (hpre : ∀ c ∈ pre, c ≠ '?') :
    ∀ (sp : List Char) (ap : List PreArg) (buf : String) (out : GoSlice),
      exprScan (pre ++ sp) ap buf out = exprScan sp ap (buf ++ String.mk pre) out := by
  induction pre with
  | nil =>
    intro sp ap buf out
    show exprScan sp ap buf out = exprScan sp ap (buf ++ "") out
    rw [String.append_empty]
  | cons c pre' ih =>
    intro sp ap buf out
    have hc : c ≠ '?' := hpre c (List.mem_cons_self _ _)
    have hpre' : ∀ x ∈ pre', x ≠ '?' := fun x hx => hpre x (List.mem_cons_of_mem _ hx)
    cases ap with
    | nil =>
      simp only [exprScan]
      congr 1
      apply strext
      simp [String.data_append]
    | cons pa ap' =>
      rw [List.cons_append]
      have step : exprScan (c :: (pre' ++ sp)) (pa :: ap') buf out =
          exprScan (pre' ++ sp) (pa :: ap') (buf ++ String.mk [c]) out := by
        simp [exprScan, hc]
      rw [step, ih hpre', show (String.mk (c :: pre') : String) = String.mk [c] ++ String.mk pre' from rfl,
        ← String.append_assoc]

/-- Claim C4 (confirmed): at an escaped `??` the scan copies both marker
characters verbatim into the output text and neither consumes a pending
argument nor appends anything to the output argument list; scanning then
resumes after the pair with the argument state untouched. -/
theorem c4_escaped_marker_preserved (pre rest : List Char) (ap : List PreArg)
    (buf : String) (out : GoSlice) (hpre : ∀ c ∈ pre, c ≠ '?') :
    exprScan (pre ++ '?' :: '?' :: rest) ap buf out =
      exprScan rest ap (buf ++ String.mk pre ++ "??") out := by
  rw [exprScan_skip_plain pre hpre]
  cases ap with
  | nil =>
    show (_ : Res) = _
    rw [show ('?' :: '?' :: rest) = ['?', '?'] ++ rest from rfl]
    simp [exprScan, mk_append, String.append_assoc]
    rfl
  | cons pa ap' => simp [exprScan]

/-- Witness for C4 at `pre = "a"`, `rest = "b"`, one plain pending
argument. -/
theorem c4_witness :
    (∀ c ∈ (['a'] : List Char), c ≠ '?') ∧
    exprScan (['a'] ++ '?' :: '?' :: ['b']) [.plain (.val (.vint 7))] "" Option.none =
      exprScan ['b'] [.plain (.val (.vint 7))] ("" ++ String.mk ['a'] ++ "??") Option.none :=
  ⟨by decide, c4_escaped_marker_preserved ['a'] ['b'] [.plain (.val (.vint 7))] ""
    Option.none (by decide)⟩

/-! ## Claims -/

/-- Claim C3 (confirmed): when no argument is itself a fragment,
`expr.ToSQL` takes the `simple` fast path and is the identity: the text,
the argument slice (in order, nil-ness included) and a nil error. -/
theorem c3_expr_fastpath_identity (sql : String) (args : OptArgs)
    (h : args.elts.hasFrag = false) :
    fragToSQL (.expr sql args) = (sql, args.toSlice, Option.none) := by
  cases args with
  | noneA => rfl
  | someA l =>
    simp only [OptArgs.elts] at h
    simp [fragToSQL, h, OptArgs.toSlice]

/-- Witness for C3 at the argument list `[1]` and text `"x = ?"`. -/
theorem c3_witness :
    (ArgList.cons (.val (.vint 1)) .nil).hasFrag = false ∧
    fragToSQL (.expr "x = ?" (.someA (.cons (.val (.vint 1)) .nil))) =
      ("x = ?", Option.some (.cons (.val (.vint 1)) .nil), Option.none) :=
  ⟨rfl, c3_expr_fastpath_identity "x = ?" (.someA (.cons (.val (.vint 1)) .nil)) rfl⟩

/-- Counterexample for C5: `Eq{}` (and `NotEq{}`) indeed render the true
literal with no error, but the returned argument slice is the *nil* slice
(the named return `args` is never assigned on the empty-map path), not an
allocated empty slice as the claim asserts. -/
theorem c5_counterexample :
    fragToSQL (.eqF []) = (sqlTrue, Option.none, Option.none) ∧
    (Option.none : GoSlice) ≠ Option.some ArgList.nil :=
  ⟨rfl, fun h => Option.noConfusion h⟩

/-- Claim C5 (amended): `ToSQL` on an empty equality map returns the fixed
true literal `"(1=1)"` with a nil (absent) argument slice and no error,
identically for the plain and the negated variant. -/
theorem c5_empty_eq_renders_true :
    fragToSQL (.eqF []) = (sqlTrue, Option.none, Option.none) ∧
    fragToSQL (.notEqF []) = (sqlTrue, Option.none, Option.none) :=
  ⟨rfl, rfl⟩

/-- Claim C8 (confirmed): the empty conjunction renders the true literal
for `And` and the false literal for `Or`, each with an allocated empty
(non-nil) argument slice and no error. -/
theorem c8_empty_conj_identities :
    fragToSQL (.andF .nil) = (sqlTrue, Option.some .nil, Option.none) ∧
    fragToSQL (.orF .nil) = (sqlFalse, Option.some .nil, Option.none) :=
  ⟨rfl, rfl⟩

/-- Counterexample for C2: the `Like` family ranges directly over the Go
map, not over `getSortedKeys`, so two association lists presenting the
same two-entry map in different orders (a permutation with distinct keys)
render different text — the render is not in sorted key order and not
deterministic across map iteration orders. -/
theorem c2_counterexample :
    ([("a", Val.vstr "x"), ("b", Val.vstr "y")]).Perm
      [("b", Val.vstr "y"), ("a", Val.vstr "x")] ∧
    fragToSQL (.likeF [("a", .vstr "x"), ("b", .vstr "y")]) ≠
      fragToSQL (.likeF [("b", .vstr "y"), ("a", .vstr "x")]) := by
  refine ⟨List.Perm.swap _ _ _, fun h => ?_⟩
  have h1 : ("a LIKE ? AND b LIKE ?" : String) = "b LIKE ? AND a LIKE ?" :=
    congrArg Prod.fst h
  exact absurd h1 (by decide)

/-- `getSortedKeys` is canonical: permuted presentations of the same map
have the same sorted key list. -/
theorem getSortedKeys_perm {m1 m2 : List (String × Val)} (hp : m1.Perm m2) :
    getSortedKeys m1 = getSortedKeys m2 := by
  apply List.eq_of_perm_of_sorted (r := (· ≤ · : String → String → Prop))
  · exact (List.perm_insertionSort _ _).trans ((hp.map Prod.fst).trans
      (List.perm_insertionSort _ _).symm)
  · exact List.sorted_insertionSort _ _
  · exact List.sorted_insertionSort _ _

/-- Map indexing is presentation-order independent when the keys are
distinct (as they are in a Go map). -/
theorem lookupVal_perm {m1 m2 : List (String × Val)} (hp : m1.Perm m2)
    (hnd : (m1.map Prod.fst).Nodup) (k : String) :
    lookupVal m1 k = lookupVal m2 k := by
  induction hp with
  | nil => rfl
  | cons x hp ih =>
    simp only [List.map_cons, List.nodup_cons] at hnd
    by_cases hx : x.1 == k
    · simp [lookupVal, List.find?, hx]
    · simp only [lookupVal, List.find?, hx]
      exact ih hnd.2
  | swap x y l =>
    simp only [List.map_cons, List.nodup_cons, List.mem_cons] at hnd
    have hxy : y.1 ≠ x.1 := fun h => hnd.1 (Or.inl h)
    by_cases hy : y.1 == k
    · have hyk : y.1 = k := by simpa using hy
      have hx : (x.1 == k) = false := by
        rw [beq_eq_false_iff_ne, ← hyk]
        exact fun h => hxy h.symm
      simp [lookupVal, List.find?, hx, hy]
    · by_cases hx : x.1 == k
      · simp [lookupVal, List.find?, hx, hy]
      · simp [lookupVal, List.find?, hx, hy]
  | trans hp1 hp2 ih1 ih2 =>
    rw [ih1 hnd, ih2 ((hp1.map Prod.fst).nodup hnd)]

/-- The `Eq.toSQL` key loop only consults the map through indexing, so
maps agreeing on every key render identically along any key list. -/
theorem eqLoop_congr (useNot : Bool) (m1 m2 : List (String × Val))
    (hl : ∀ k, lookupVal m1 k = lookupVal m2 k) :
    ∀ (keys : List String) (exprs : List String) (args : GoSlice),
      eqLoop useNot m1 keys exprs args = eqLoop useNot m2 keys exprs args := by
  intro keys
  induction keys with
  | nil => intro exprs args; rfl
  | cons key rest ih =>
    intro exprs args
    simp only [eqLoop, hl key]
    cases unwrapValuer (lookupVal m2 key) with
    | error e => rfl
    | ok v0 =>
      rcases v0 with n | s | bs | _ | vs | p | r
      · exact ih _ _
      · exact ih _ _
      · exact ih _ _
      · exact ih _ _
      · rcases vs with _ | ⟨v1, vs'⟩ <;> exact ih _ _
      · cases p with
        | none => exact ih _ _
        | some x =>
          rcases x with n | s | bs | _ | vs | p' | r
          · exact ih _ _
          · exact ih _ _
          · exact ih _ _
          · exact ih _ _
          · rcases vs with _ | ⟨v1, vs'⟩ <;> exact ih _ _
          · exact ih _ _
          · exact ih _ _
      · exact ih _ _

/-- The `Lt.toSQL` key loop likewise. -/
theorem ltLoop_congr (opr : String) (m1 m2 : List (String × Val))
    (hl : ∀ k, lookupVal m1 k = lookupVal m2 k) :
    ∀ (keys : List String) (exprs : List String) (args : GoSlice),
      ltLoop opr m1 keys exprs args = ltLoop opr m2 keys exprs args := by
  intro keys
  induction keys with
  | nil => intro exprs args; rfl
  | cons key rest ih =>
    intro exprs args
    simp only [ltLoop, hl key]
    cases unwrapValuer (lookupVal m2 key) with
    | error e => rfl
    | ok v =>
      rcases v with n | s | bs | _ | vs | p | r
      · exact ih _ _
      · exact ih _ _
      · exact ih _ _
      · rfl
      · rfl
      · exact ih _ _
      · exact ih _ _

/-- Claim C2 (amended): the equality family (`Eq`/`NotEq`) and the
comparison family (`Lt`/`LtOrEq`/`Gt`/`GtOrEq`) visit map keys in sorted
order, so renders of the same map are identical regardless of the map's
presentation/iteration order; the pattern-match (`Like`) family, however,
ranges over the map directly and is *not* iteration-order independent
(see the counterexample). -/
theorem c2_sorted_key_determinism (m1 m2 : List (String × Val))
    (hp : m1.Perm m2) (hnd : (m1.map Prod.fst).Nodup) :
    (∀ useNot, eqToSQL useNot m1 = eqToSQL useNot m2) ∧
    (∀ opposite orEq, ltToSQL opposite orEq m1 = ltToSQL opposite orEq m2) := by
  have hl : ∀ k, lookupVal m1 k = lookupVal m2 k := lookupVal_perm hp hnd
  have hkeys : getSortedKeys m1 = getSortedKeys m2 := getSortedKeys_perm hp
  constructor
  · intro useNot
    unfold eqToSQL
    rw [hp.length_eq, hkeys, eqLoop_congr useNot m1 m2 hl]
  · intro opposite orEq
    unfold ltToSQL
    rw [hkeys, ltLoop_congr _ m1 m2 hl]

/-- Witness for C2 (amended): the two presentations of the map
`{"a": 1, "b": 2}` render identically through `Eq` and `Lt`. -/
theorem c2_witness :
    (([("b", Val.vint 2), ("a", Val.vint 1)]).Perm
        [("a", Val.vint 1), ("b", Val.vint 2)] ∧
      ([("b", Val.vint 2), ("a", Val.vint 1)].map Prod.fst).Nodup) ∧
    eqToSQL false [("b", Val.vint 2), ("a", Val.vint 1)] =
      eqToSQL false [("a", Val.vint 1), ("b", Val.vint 2)] ∧
    ltToSQL false false [("b", Val.vint 2), ("a", Val.vint 1)] =
      ltToSQL false false [("a", Val.vint 1), ("b", Val.vint 2)] :=
  ⟨⟨List.Perm.swap _ _ _, by decide⟩,
   (c2_sorted_key_determinism _ _ (List.Perm.swap _ _ _) (by decide)).1 false,
   (c2_sorted_key_determinism _ _ (List.Perm.swap _ _ _) (by decide)).2 false false⟩

/-- Counterexample for C7: `Lt.toSQL` has no pointer unwrap (unlike
`Eq.toSQL`), so a typed nil pointer value is not null to it: the render
succeeds, binding the nil pointer, instead of failing as the claim (which
includes empty pointer wrappers among nulls) asserts. -/
theorem c7_counterexample :
    fragToSQL (.ltF [("x", .vptr Option.none)]) =
      ("x < ?", Option.some (.cons (.val (.vptr Option.none)) .nil), Option.none) :=
  rfl

/-- With distinct keys (as in a Go map), indexing returns the stored
value of a member entry. -/
theorem lookupVal_of_mem :
    ∀ (m : List (String × Val)) (k : String) (v : Val),
      (k, v) ∈ m → (m.map Prod.fst).Nodup → lookupVal m k = v := by
  intro m
  induction m with
  | nil => intro k v hm; exact absurd hm (List.not_mem_nil _)
  | cons p rest ih =>
    intro k v hm hnd
    simp only [List.map_cons, List.nodup_cons] at hnd
    by_cases hk : p.1 == k
    · have hpk : p.1 = k := by simpa using hk
      rcases List.mem_cons.mp hm with h | h
      · simp [lookupVal, List.find?, hk, h.symm]
      · exact absurd (hpk ▸ List.mem_map_of_mem Prod.fst h) hnd.1
    · rcases List.mem_cons.mp hm with h | h
      · exact absurd (show p.1 = k by rw [← h]) (by simpa using hk)
      · simp only [lookupVal, List.find?, hk]
        exact ih k v h hnd.2

/-- If some key of the visited list indexes a null or list value, the
`Lt` key loop ends in an error. -/
theorem ltLoop_bad_key (opr : String) (m : List (String × Val)) (k : String)
    (hbad : lookupVal m k = .vnull ∨ ∃ vs, lookupVal m k = .vlist vs) :
    ∀ (keys : List String) (exprs : List String) (args : GoSlice),
      k ∈ keys → (ltLoop opr m keys exprs args).2.2 ≠ Option.none := by
  intro keys
  induction keys with
  | nil => intro exprs args hk; exact absurd hk (List.not_mem_nil _)
  | cons key rest ih =>
    intro exprs args hk
    by_cases hkey : key = k
    · subst hkey
      rcases hbad with h | ⟨vs, h⟩ <;>
        simp [ltLoop, h, unwrapValuer, isListType]
    · have hk' : k ∈ rest := List.mem_of_ne_of_mem (fun h => hkey h.symm) hk
      simp only [ltLoop]
      cases unwrapValuer (lookupVal m key) with
      | error e => simp
      | ok v =>
        rcases v with n | s | bs | _ | vs | p | r
        · exact ih _ _ hk'
        · exact ih _ _ hk'
        · exact ih _ _ hk'
        · simp
        · simp [isListType]
        · exact ih _ _ hk'
        · exact ih _ _ hk'

/-- If some entry of the remaining map holds a null or list value, the
`Like` entry loop ends in an error. -/
theorem likeLoop_bad_entry (opr : String) (k : String) :
    ∀ (m : List (String × Val)) (exprs : List String) (args : GoSlice),
      ((k, Val.vnull) ∈ m ∨ ∃ vs, (k, Val.vlist vs) ∈ m) →
      (likeLoop opr m exprs args).2.2 ≠ Option.none := by
  intro m
  induction m with
  | nil =>
    intro exprs args hbad
    rcases hbad with h | ⟨vs, h⟩ <;> exact absurd h (List.not_mem_nil _)
  | cons p rest ih =>
    intro exprs args hbad
    rcases p with ⟨key, val⟩
    rcases hbad with h | ⟨vs, h⟩
    · rcases List.mem_cons.mp h with h1 | h1
      · have hval : val = Val.vnull := by injection h1 with _ hb; exact hb.symm
        subst hval
        simp [likeLoop, unwrapValuer]
      · simp only [likeLoop]
        cases unwrapValuer val with
        | error e => simp
        | ok v =>
          rcases v with n | s | bs | _ | vs' | p' | r
          · exact ih _ _ (Or.inl h1)
          · exact ih _ _ (Or.inl h1)
          · exact ih _ _ (Or.inl h1)
          · simp
          · simp [isListType]
          · exact ih _ _ (Or.inl h1)
          · exact ih _ _ (Or.inl h1)
    · rcases List.mem_cons.mp h with h1 | h1
      · have hval : val = Val.vlist vs := by injection h1 with _ hb; exact hb.symm
        subst hval
        simp [likeLoop, unwrapValuer, isListType]
      · simp only [likeLoop]
        cases unwrapValuer val with
        | error e => simp
        | ok v =>
          rcases v with n | s | bs | _ | vs' | p' | r
          · exact ih _ _ (Or.inr ⟨vs, h1⟩)
          · exact ih _ _ (Or.inr ⟨vs, h1⟩)
          · exact ih _ _ (Or.inr ⟨vs, h1⟩)
          · simp
          · simp [isListType]
          · exact ih _ _ (Or.inr ⟨vs, h1⟩)
          · exact ih _ _ (Or.inr ⟨vs, h1⟩)

/-- Claim C7 (amended): every comparison-family map (`Lt`/`LtOrEq`/`Gt`/
`GtOrEq`) and pattern-match map (`Like` family) holding an entry whose
value is directly null or a list/array fails with an error rather than
rendering.  (An *empty pointer wrapper* is not unwrapped by these
families — unlike `Eq` — and is bound as a scalar; see the
counterexample.) -/
theorem c7_null_or_list_rejected (m : List (String × Val)) (k : String)
    (hnd : (m.map Prod.fst).Nodup)
    (hbad : (k, Val.vnull) ∈ m ∨ ∃ vs, (k, Val.vlist vs) ∈ m) :
    (∀ opposite orEq, (ltToSQL opposite orEq m).2.2 ≠ Option.none) ∧
    (∀ opr, (likeToSQL opr m).2.2 ≠ Option.none) := by
  constructor
  · intro opposite orEq
    have hkm : k ∈ m.map Prod.fst := by
      rcases hbad with h | ⟨vs, h⟩ <;> exact List.mem_map_of_mem Prod.fst h
    have hk : k ∈ getSortedKeys m :=
      (List.perm_insertionSort _ _).mem_iff.mpr hkm
    have hlk : lookupVal m k = .vnull ∨ ∃ vs, lookupVal m k = .vlist vs := by
      rcases hbad with h | ⟨vs, h⟩
      · exact Or.inl (lookupVal_of_mem m k _ h hnd)
      · exact Or.inr ⟨vs, lookupVal_of_mem m k _ h hnd⟩
    exact ltLoop_bad_key _ m k hlk (getSortedKeys m) [] Option.none hk
  · intro opr
    exact likeLoop_bad_entry opr k m [] Option.none hbad

/-- Witness for C7 (amended) on `{"x": nil}` through `Lt` and `Like`. -/
theorem c7_witness :
    ((([("x", Val.vnull)]).map Prod.fst).Nodup ∧ ("x", Val.vnull) ∈ [("x", Val.vnull)]) ∧
    (ltToSQL false false [("x", Val.vnull)]).2.2 ≠ Option.none ∧
    (likeToSQL "LIKE" [("x", Val.vnull)]).2.2 ≠ Option.none :=
  ⟨⟨by decide, List.mem_cons_self _ _⟩,
   (c7_null_or_list_rejected [("x", Val.vnull)] "x" (by decide)
      (Or.inl (List.mem_cons_self _ _))).1 false false,
   (c7_null_or_list_rejected [("x", Val.vnull)] "x" (by decide)
      (Or.inl (List.mem_cons_self _ _))).2 "LIKE"⟩

/-- `WriteString` never touches the sticky error. -/
theorem writeString_err (b : SB) (s : String) : (writeString b s).err = b.err :=
  rfl

/-- `WriteSQL` is a no-op once an error is recorded. -/
theorem writeSQLRes_skip (b : SB) (r : Res) (h : b.err.isSome = true) :
    writeSQLRes b r = b := by
  simp [writeSQLRes, h]

/-- Once the `sqlizerBuffer` has recorded an error, the WHEN/THEN loop
preserves it: every later `WriteSQL` is skipped. -/
theorem caseWhens_err_stable :
    ∀ (ws : WhenList) (b : SB), b.err.isSome = true → (caseWhens ws b).err = b.err
  | .nil, _, _ => rfl
  | .cons w t rest, b, h => by
    rw [caseWhens, writeSQLRes_skip (writeString b "WHEN ") (fragToSQL w) h,
      writeSQLRes_skip (writeString (writeString b "WHEN ") "THEN ") (fragToSQL t) h]
    exact caseWhens_err_stable rest _ h

/-- Claim C1 (amended): a nested fragment's render error aborts further
scanning and is returned unchanged by the surrounding `ToSQL` — but the
text returned alongside the error may be non-empty partial text (the
already-scanned prefix, the failing child's partial text and the
remaining text), not the empty string.  First conjunct: an `expr` whose
text is `pre ++ "?" ++ rest` (with `pre` marker-free and the marker not
escaped) and whose first argument is a failing fragment returns exactly
the nested error, with the partial text shown.  Second conjunct: a CASE
expression whose first WHEN child fails returns exactly that error. -/
theorem c1_nested_error_unchanged :
    (∀ (pre rest : List Char) (f : Frag) (ap : ArgList) (s : String) (a : GoSlice)
        (e : String), (∀ c ∈ pre, c ≠ '?') → rest.head? ≠ Option.some '?' →
      fragToSQL f = (s, a, Option.some e) →
      (fragToSQL (.expr (String.mk (pre ++ '?' :: rest))
          (.someA (.cons (.frag f) ap)))).2.2 = Option.some e ∧
      (fragToSQL (.expr (String.mk (pre ++ '?' :: rest))
          (.someA (.cons (.frag f) ap)))).1 = String.mk pre ++ s ++ String.mk rest) ∧
    (∀ (w t : Frag) (rest : WhenList) (s : String) (a : GoSlice) (e : String),
      fragToSQL w = (s, a, Option.some e) →
      (fragToSQL (.caseF .none (.cons w t rest) .none)).2.2 = Option.some e) := by
  constructor
  · intro pre rest f ap s a e hpre hrest hf
    have hfrag : (ArgList.cons (.frag f) ap).hasFrag = true := rfl
    have hunf : fragToSQL (.expr (String.mk (pre ++ '?' :: rest))
        (.someA (.cons (.frag f) ap))) =
        exprScan (pre ++ '?' :: rest)
          (.rendered (.frag f) (fragToSQL f) :: renderPre ap) "" Option.none := by
      simp [fragToSQL, renderPre, hfrag]
    rw [hunf, hf, exprScan_skip_plain pre hpre]
    have hstep : exprScan ('?' :: rest)
        (.rendered (.frag f) (s, a, Option.some e) :: renderPre ap)
        ("" ++ String.mk pre) Option.none =
        ("" ++ String.mk pre ++ s ++ String.mk rest,
         gappend (gappend Option.none a.elts)
           (ArgList.ofList ((renderPre ap).map PreArg.arg)), Option.some e) := by
      cases rest with
      | nil => simp [exprScan]
      | cons c rest' =>
        have hc : c ≠ '?' := by
          intro hcq
          exact hrest (by rw [hcq]; rfl)
        simp [exprScan, hc]
    rw [hstep]
    constructor
    · rfl
    · show ("" ++ String.mk pre ++ s ++ String.mk rest : String) = _
      rw [String.empty_append]
  · intro w t rest s a e hw
    show (writeString (caseElse .none (caseWhens (.cons w t rest)
      (caseWhat .none { buf := "CASE ", args := Option.none, err := Option.none }))) "END").err
        = Option.some e
    rw [writeString_err]
    show (caseWhens (.cons w t rest)
      { buf := "CASE ", args := Option.none, err := Option.none }).err = Option.some e
    rw [caseWhens]
    have hb2 : (writeSQLRes (writeString (writeSQLRes
        (writeString { buf := "CASE ", args := Option.none, err := Option.none } "WHEN ")
        (fragToSQL w)) "THEN ") (fragToSQL t)).err = Option.some e := by
      rw [hw]
      rfl
    rw [caseWhens_err_stable rest _ (by rw [hb2]; rfl)]
    exact hb2

/-- Witness for C1 (amended) at `pre = "a"`, `rest = "b"`, the failing
nested fragment `Lt{"x": nil}`; and a CASE whose first WHEN is that same
failing fragment. -/
theorem c1_witness :
    ((fragToSQL (.expr (String.mk (['a'] ++ '?' :: ['b']))
        (.someA (.cons (.frag (.ltF [("x", .vnull)])) .nil)))).2.2 =
      Option.some "cannot use null with less than or greater than operators" ∧
     (fragToSQL (.expr (String.mk (['a'] ++ '?' :: ['b']))
        (.someA (.cons (.frag (.ltF [("x", .vnull)])) .nil)))).1 =
      String.mk ['a'] ++ "" ++ String.mk ['b']) ∧
    (fragToSQL (.caseF .none (.cons (.ltF [("x", .vnull)]) (.expr "y" .noneA) .nil)
        .none)).2.2 =
      Option.some "cannot use null with less than or greater than operators" :=
  ⟨c1_nested_error_unchanged.1 ['a'] ['b'] (.ltF [("x", .vnull)]) .nil ""
      Option.none "cannot use null with less than or greater than operators"
      (by decide) (by decide) rfl,
   c1_nested_error_unchanged.2 (.ltF [("x", .vnull)]) (.expr "y" .noneA) .nil ""
      Option.none "cannot use null with less than or greater than operators" rfl⟩

/-- Counterexample for C1: an `expr` whose single nested fragment fails
does return the nested error unchanged, but the text returned alongside
it is *not* empty: the scan has already copied the text surrounding the
marker into the buffer and the code appends the remaining text
unconditionally before returning. -/
theorem c1_counterexample :
    fragToSQL (.expr "a?b" (.someA (.cons (.frag (.ltF [("x", .vnull)])) .nil))) =
      ("ab", Option.none,
        Option.some "cannot use null with less than or greater than operators") ∧
    ("ab" : String) ≠ "" :=
  ⟨rfl, by decide⟩

/-- Counterexample for C10: an expression can contain a fragment argument
that is never matched to a marker (here the second argument, with a
one-marker text) and still fail, because a *matched* argument's render
fails; `ToSQL` then does not succeed, contrary to the claim — though the
unmatched fragment is still appended un-rendered to the output list. -/
theorem c10_counterexample :
    fragToSQL (.expr "?" (.someA (.cons (.frag (.ltF [("x", .vnull)]))
        (.cons (.frag (.expr "y" .noneA)) .nil)))) =
      ("", Option.some (.cons (.frag (.expr "y" .noneA)) .nil),
        Option.some "cannot use null with less than or greater than operators") :=
  rfl

/-- Claim C6 (confirmed): for an equality-map entry holding a list value
(shown on the single-entry map, which isolates the per-entry rule): an
empty list renders the fixed false literal under plain equality and the
fixed true literal under negation, binding no arguments (and allocating
the empty slice); a non-empty list renders `IN`/`NOT IN` with one marker
per element — exactly `n` non-escaped markers — and appends the elements
in list order. -/
theorem c6_eq_list_value (k : String) (vs : List Val) :
    (vs = [] →
      fragToSQL (.eqF [(k, .vlist vs)]) = (sqlFalse, Option.some .nil, Option.none) ∧
      fragToSQL (.notEqF [(k, .vlist vs)]) = (sqlTrue, Option.some .nil, Option.none)) ∧
    (vs ≠ [] →
      fragToSQL (.eqF [(k, .vlist vs)]) =
        (k ++ " IN (" ++ Placeholders vs.length ++ ")",
          Option.some (ArgList.ofVals vs), Option.none) ∧
      fragToSQL (.notEqF [(k, .vlist vs)]) =
        (k ++ " NOT IN (" ++ Placeholders vs.length ++ ")",
          Option.some (ArgList.ofVals vs), Option.none)) ∧
    countUnesc (Placeholders vs.length).data = vs.length := by
  refine ⟨?_, ?_, countUnesc_Placeholders vs.length⟩
  · rintro rfl
    constructor <;>
      simp [fragToSQL, eqToSQL, getSortedKeys, List.insertionSort, List.orderedInsert,
        eqLoop, lookupVal, List.find?, unwrapValuer, gappend, ArgList.ofVals,
        intercalate_singleton]
  · intro hne
    obtain ⟨v, vs', rfl⟩ := List.exists_cons_of_ne_nil hne
    constructor <;>
      simp [fragToSQL, eqToSQL, getSortedKeys, List.insertionSort, List.orderedInsert,
        eqLoop, lookupVal, List.find?, unwrapValuer, gappend, ArgList.ofVals,
        ArgList.ofList, intercalate_singleton, String.append_assoc]

/-- Witness for C6 at `k = "id"`, `vs = [1, 2]` (and the empty list for
the first conjunct via a second instantiation inside the same witness). -/
theorem c6_witness :
    (([(.vint 1), (.vint 2)] : List Val) ≠ [] ∧
      fragToSQL (.eqF [("id", .vlist [.vint 1, .vint 2])]) =
        ("id" ++ " IN (" ++ Placeholders 2 ++ ")",
          Option.some (ArgList.ofVals [.vint 1, .vint 2]), Option.none)) ∧
    (([] : List Val) = [] ∧
      fragToSQL (.eqF [("id", .vlist [])]) = (sqlFalse, Option.some .nil, Option.none)) :=
  ⟨⟨List.cons_ne_nil _ _, ((c6_eq_list_value "id" [.vint 1, .vint 2]).2.1 (List.cons_ne_nil _ _)).1⟩,
   ⟨rfl, ((c6_eq_list_value "id" []).1 rfl).1⟩⟩

/-- The central counting property of the debug interpolation loop: with
`i` values already interpolated (never more than there are arguments),
if the remaining markers overshoot the remaining arguments the loop
returns the "too many placeholders" diagnostic, and if they undershoot it
returns the "not enough placeholders" diagnostic — in both cases a string
with the respective recognizable head. -/
theorem debugScan_mismatch :
    ∀ (n : Nat) (sp : List Char), sp.length ≤ n →
      ∀ (args : ArgList) (i : Nat) (buf : String) (seg : List Char), i ≤ args.length →
        (countUnesc sp + i > args.length →
          ∃ t, debugScan sp args i buf seg =
            "[DebugSQLizer error: too many placeholders in " ++ t) ∧
        (countUnesc sp + i < args.length →
          ∃ t, debugScan sp args i buf seg =
            "[DebugSQLizer error: not enough placeholders in " ++ t) := by
  intro n
  induction n with
  | zero =>
    intro sp hsp args i buf seg hi
    have hsp0 : sp = [] := List.eq_nil_of_length_eq_zero (Nat.le_zero.mp hsp)
    subst hsp0
    constructor
    · intro hgt
      simp only [countUnesc] at hgt
      omega
    · intro hlt
      have hcond : i < args.length := by simp only [countUnesc] at hlt; omega
      exact ⟨goQuote (String.mk seg) ++ (" for " ++ (toString args.length ++ " args]")),
        by simp [debugScan, hcond]⟩
  | succ n ih =>
    intro sp hsp args i buf seg hi
    rcases sp with _ | ⟨c, sp1⟩
    · constructor
      · intro hgt
        simp only [countUnesc] at hgt
        omega
      · intro hlt
        have hcond : i < args.length := by simp only [countUnesc] at hlt; omega
        exact ⟨goQuote (String.mk seg) ++ (" for " ++ (toString args.length ++ " args]")),
          by simp [debugScan, hcond]⟩
    · by_cases hc : c = '?'
      · subst hc
        rcases sp1 with _ | ⟨c2, sp2⟩
        · -- a single trailing marker
          constructor
          · intro hgt
            have hcond : i + 1 > args.length := by
              simp only [countUnesc] at hgt; omega
            exact ⟨goQuote (String.mk (seg ++ ['?'])) ++
                (" for " ++ (toString args.length ++ " args]")),
              by simp [debugScan, hcond]⟩
          · intro hlt
            have hlt1 : i + 1 < args.length := by
              simp only [countUnesc] at hlt; omega
            have hcond : ¬ i + 1 > args.length := by omega
            refine ⟨goQuote (String.mk []) ++
              (" for " ++ (toString args.length ++ " args]")), ?_⟩
            rw [show debugScan ['?'] args i buf seg =
                debugScan [] args (i + 1)
                  (buf ++ String.mk seg ++ "'" ++ argDisplay (args.getIdx i) ++ "'") []
              from by simp [debugScan, hcond]]
            simp [debugScan, hlt1]
        · by_cases hc2 : c2 = '?'
          · subst hc2
            -- escaped pair: no argument consumed
            have hrec := ih sp2 (by simp at hsp; omega) args i
              (buf ++ String.mk seg ++ "?") [] hi
            have hstep : debugScan ('?' :: '?' :: sp2) args i buf seg =
                debugScan sp2 args i (buf ++ String.mk seg ++ "?") [] := by
              simp [debugScan]
            have hcnt : countUnesc ('?' :: '?' :: sp2) = countUnesc sp2 := by
              simp [countUnesc]
            constructor
            · intro hgt
              rw [hstep]
              exact hrec.1 (by omega)
            · intro hlt
              rw [hstep]
              exact hrec.2 (by omega)
          · -- single marker followed by more text
            have hcnt : countUnesc ('?' :: c2 :: sp2) = countUnesc (c2 :: sp2) + 1 := by
              simp [countUnesc, hc2]
            constructor
            · intro hgt
              by_cases hcond : i + 1 > args.length
              · exact ⟨goQuote (String.mk (seg ++ '?' :: c2 :: sp2)) ++
                    (" for " ++ (toString args.length ++ " args]")),
                  by simp [debugScan, hc2, hcond]⟩
              · have hstep : debugScan ('?' :: c2 :: sp2) args i buf seg =
                    debugScan (c2 :: sp2) args (i + 1)
                      (buf ++ String.mk seg ++ "'" ++ argDisplay (args.getIdx i) ++ "'")
                      [] := by
                  simp [debugScan, hc2, hcond]
                rw [hstep]
                exact (ih (c2 :: sp2) (by simp at hsp ⊢; omega) args (i + 1)
                  _ _ (by omega)).1 (by omega)
            · intro hlt
              have hcond : ¬ i + 1 > args.length := by omega
              have hstep : debugScan ('?' :: c2 :: sp2) args i buf seg =
                  debugScan (c2 :: sp2) args (i + 1)
                    (buf ++ String.mk seg ++ "'" ++ argDisplay (args.getIdx i) ++ "'")
                    [] := by
                simp [debugScan, hc2, hcond]
              rw [hstep]
              exact (ih (c2 :: sp2) (by simp at hsp ⊢; omega) args (i + 1)
                _ _ (by omega)).2 (by omega)
      · -- a plain character: accumulated into the pending segment
        have hcnt : countUnesc (c :: sp1) = countUnesc sp1 := by
          simp [countUnesc, hc]
        have hstep : debugScan (c :: sp1) args i buf seg =
            debugScan sp1 args i buf (seg ++ [c]) := by
          simp [debugScan, hc]
        have hrec := ih sp1 (by simp at hsp; omega) args i buf (seg ++ [c]) hi
        constructor
        · intro hgt
          rw [hstep]
          exact hrec.1 (by omega)
        · intro hlt
          rw [hstep]
          exact hrec.2 (by omega)

/-- Claim C9 (confirmed): for a successfully rendered fragment whose
final text has more non-escaped markers than bound arguments, the debug
renderer returns the "too many placeholders" diagnostic string, and with
fewer markers than arguments the "not enough placeholders" diagnostic —
two distinguishable diagnostics (distinct heads), with no panic,
truncation, or silently partial output (`debugScan` is total and these
branches return only the diagnostic). -/
theorem c9_debug_mismatch_diagnosed (f : Frag) (sql : String) (args : GoSlice)
    (h : fragToSQL f = (sql, args, Option.none)) :
    (countUnesc sql.data > args.elts.length →
      ∃ t, DebugSQLizer f = "[DebugSQLizer error: too many placeholders in " ++ t) ∧
    (countUnesc sql.data < args.elts.length →
      ∃ t, DebugSQLizer f =
        "[DebugSQLizer error: not enough placeholders in " ++ t) ∧
    ("[DebugSQLizer error: too many placeholders in " : String) ≠
      "[DebugSQLizer error: not enough placeholders in " := by
  have hd : DebugSQLizer f = debugScan sql.data args.elts 0 "" [] := by
    simp [DebugSQLizer, h]
  have hm := debugScan_mismatch sql.data.length sql.data (Nat.le_refl _)
    args.elts 0 "" [] (Nat.zero_le _)
  exact ⟨fun hgt => hd ▸ hm.1 (by omega), fun hlt => hd ▸ hm.2 (by omega), by decide⟩

/-- Witness for C9: `Expr("x = ? AND y = ?", 1)` (two markers, one
argument) yields the too-many diagnostic; `Expr("x = ?", 1, 2)` (one
marker, two arguments) yields the not-enough diagnostic — the repository
tests pin exactly these two scenarios. -/
theorem c9_witness :
    (∃ t, DebugSQLizer (.expr "x = ? AND y = ?" (.someA (.cons (.val (.vint 1)) .nil))) =
      "[DebugSQLizer error: too many placeholders in " ++ t) ∧
    (∃ t, DebugSQLizer (.expr "x = ?"
        (.someA (.cons (.val (.vint 1)) (.cons (.val (.vint 2)) .nil)))) =
      "[DebugSQLizer error: not enough placeholders in " ++ t) :=
  ⟨(c9_debug_mismatch_diagnosed
      (.expr "x = ? AND y = ?" (.someA (.cons (.val (.vint 1)) .nil)))
      "x = ? AND y = ?" (Option.some (.cons (.val (.vint 1)) .nil)) rfl).1 (by decide),
   (c9_debug_mismatch_diagnosed
      (.expr "x = ?" (.someA (.cons (.val (.vint 1)) (.cons (.val (.vint 2)) .nil))))
      "x = ?" (Option.some (.cons (.val (.vint 1)) (.cons (.val (.vint 2)) .nil)))
      rfl).2.1 (by decide)⟩

/-- A pre-rendered argument that does not hold a failed render. -/
def PreArg.errFree : PreArg → Prop
  | .plain _ => True
  | .rendered _ r => r.2.2 = Option.none

theorem ofList_toList : ∀ xs : List Arg, (ArgList.ofList xs).toList = xs := by
  intro xs
  induction xs with
  | nil => rfl
  | cons a rest ih => simp [ArgList.ofList, ArgList.toList, ih]

theorem append_toList : ∀ a b : ArgList, (a.append b).toList = a.toList ++ b.toList
  | .nil, b => rfl
  | .cons x rest, b => by simp [ArgList.append, ArgList.toList, append_toList rest b]

/-- Go `append` concatenates the element sequences, whatever the nil-ness
of the receiver. -/
theorem gappend_elts_toList (s : GoSlice) (xs : ArgList) :
    (gappend s xs).elts.toList = s.elts.toList ++ xs.toList := by
  cases xs with
  | nil => simp [gappend, ArgList.toList]
  | cons a rest =>
    cases s with
    | none => simp [gappend, GoSlice.elts, ArgList.toList]
    | some l => simp [gappend, GoSlice.elts, append_toList]

/-- Pre-rendering preserves the underlying argument sequence. -/
theorem renderPre_map_arg : ∀ l : ArgList, (renderPre l).map PreArg.arg = l.toList
  | .nil => rfl
  | .cons (.val v) rest => by
    simp [renderPre, ArgList.toList, PreArg.arg, renderPre_map_arg rest]
  | .cons (.frag f) rest => by
    simp [renderPre, ArgList.toList, PreArg.arg, renderPre_map_arg rest]

/-- Every pre-rendered argument is a plain value or a fragment paired
with exactly its render result. -/
theorem renderPre_mem : ∀ (l : ArgList) (pa : PreArg), pa ∈ renderPre l →
    (∃ v, pa = .plain (.val v)) ∨ ∃ g, pa = .rendered (.frag g) (fragToSQL g)
  | .nil, pa, h => absurd h (List.not_mem_nil _)
  | .cons (.val v) rest, pa, h => by
    rcases List.mem_cons.mp h with h1 | h1
    · exact Or.inl ⟨v, h1⟩
    · exact renderPre_mem rest pa h1
  | .cons (.frag f) rest, pa, h => by
    rcases List.mem_cons.mp h with h1 | h1
    · exact Or.inr ⟨f, h1⟩
    · exact renderPre_mem rest pa h1

/-- A list containing a fragment argument fails the `simple` test. -/
theorem hasFrag_of_mem : ∀ (l : ArgList) (f : Frag),
    Arg.frag f ∈ l.toList → l.hasFrag = true
  | .nil, f, h => absurd h (List.not_mem_nil _)
  | .cons (.val v) rest, f, h => by
    rcases List.mem_cons.mp h with h1 | h1
    · exact absurd h1 (by simp)
    · exact hasFrag_of_mem rest f h1
  | .cons (.frag _) rest, f, _ => rfl

/-- The scan's argument bookkeeping: the scan consumes at most the first
`countUnesc sp` pending arguments; provided each of those that is a
fragment rendered without error, the scan itself reports no error and
every pending argument beyond them reaches the output argument list
unchanged. -/
theorem exprScan_unmatched :
    ∀ (n : Nat) (sp : List Char), sp.length ≤ n →
    ∀ (ap : List PreArg) (buf : String) (out : GoSlice),
      (∀ pa ∈ ap.take (countUnesc sp), PreArg.errFree pa) →
      (exprScan sp ap buf out).2.2 = Option.none ∧
      ∀ pa ∈ ap.drop (countUnesc sp),
        PreArg.arg pa ∈ ((exprScan sp ap buf out).2.1).elts.toList := by
  intro n
  induction n with
  | zero =>
    intro sp hsp ap buf out hok
    have hsp0 : sp = [] := List.eq_nil_of_length_eq_zero (Nat.le_zero.mp hsp)
    subst hsp0
    cases ap with
    | nil => exact ⟨rfl, fun pa h => absurd h (List.not_mem_nil _)⟩
    | cons pa0 ap' =>
      refine ⟨rfl, fun pa h => ?_⟩
      show PreArg.arg pa ∈
        (gappend out (ArgList.ofList ((pa0 :: ap').map PreArg.arg))).elts.toList
      rw [gappend_elts_toList, ofList_toList]
      simp only [countUnesc, List.drop_zero] at h
      exact List.mem_append_right _ (List.mem_map_of_mem PreArg.arg h)
  | succ n ih =>
    intro sp hsp ap buf out hok
    cases ap with
    | nil =>
      refine ⟨by simp [exprScan], fun pa h => ?_⟩
      rw [List.drop_nil] at h
      exact absurd h (List.not_mem_nil _)
    | cons pa0 ap' =>
      rcases sp with _ | ⟨c, sp1⟩
      · refine ⟨rfl, fun pa h => ?_⟩
        show PreArg.arg pa ∈
          (gappend out (ArgList.ofList ((pa0 :: ap').map PreArg.arg))).elts.toList
        rw [gappend_elts_toList, ofList_toList]
        simp only [countUnesc, List.drop_zero] at h
        exact List.mem_append_right _ (List.mem_map_of_mem PreArg.arg h)
      · by_cases hc : c = '?'
        · subst hc
          rcases sp1 with _ | ⟨c2, sp2⟩
          · -- single trailing marker: consumes pa0
            have hfree : PreArg.errFree pa0 := hok pa0 (by simp [countUnesc])
            have hok' : ∀ pa ∈ ap'.take (countUnesc ([] : List Char)),
                PreArg.errFree pa := by
              simp [countUnesc]
            cases pa0 with
            | plain a =>
              have hstep : exprScan ['?'] (.plain a :: ap') buf out =
                  exprScan [] ap' (buf ++ "?") (gappend out (.cons a .nil)) := by
                simp [exprScan]
              rw [hstep]
              have hrec := ih [] (by simp) ap' (buf ++ "?")
                (gappend out (.cons a .nil)) hok'
              refine ⟨hrec.1, fun pa h => ?_⟩
              simp only [countUnesc, List.drop_succ_cons, List.drop_zero] at h
              exact hrec.2 pa (by simpa [countUnesc] using h)
            | rendered a r =>
              obtain ⟨isql, iargs, e⟩ := r
              have he : e = Option.none := hfree
              subst he
              have hstep : exprScan ['?']
                  (.rendered a (isql, iargs, Option.none) :: ap') buf out =
                  exprScan [] ap' (buf ++ isql) (gappend out iargs.elts) := by
                simp [exprScan]
              rw [hstep]
              have hrec := ih [] (by simp) ap' (buf ++ isql)
                (gappend out iargs.elts) hok'
              refine ⟨hrec.1, fun pa h => ?_⟩
              simp only [countUnesc, List.drop_succ_cons, List.drop_zero] at h
              exact hrec.2 pa (by simpa [countUnesc] using h)
          · by_cases hc2 : c2 = '?'
            · subst hc2
              -- escaped pair: nothing consumed
              have hstep : exprScan ('?' :: '?' :: sp2) (pa0 :: ap') buf out =
                  exprScan sp2 (pa0 :: ap') (buf ++ "??") out := by
                simp [exprScan]
              rw [hstep]
              have hcnt : countUnesc ('?' :: '?' :: sp2) = countUnesc sp2 := by
                simp [countUnesc]
              exact ih sp2 (by simp at hsp; omega) (pa0 :: ap') (buf ++ "??") out
                (by rw [← hcnt]; exact hok) |>.imp id
                (fun hmem pa h => hmem pa (by rwa [hcnt] at h))
            · -- single marker: consumes pa0
              have hcnt : countUnesc ('?' :: c2 :: sp2) = countUnesc (c2 :: sp2) + 1 := by
                simp [countUnesc, hc2]
              have hfree : PreArg.errFree pa0 := hok pa0 (by
                rw [hcnt]
                exact List.mem_cons_self _ _)
              have hok' : ∀ pa ∈ ap'.take (countUnesc (c2 :: sp2)),
                  PreArg.errFree pa := fun pa h => hok pa (by
                rw [hcnt]
                exact List.mem_cons_of_mem _ h)
              cases pa0 with
              | plain a =>
                have hstep : exprScan ('?' :: c2 :: sp2) (.plain a :: ap') buf out =
                    exprScan (c2 :: sp2) ap' (buf ++ "?")
                      (gappend out (.cons a .nil)) := by
                  simp [exprScan, hc2]
                rw [hstep]
                have hrec := ih (c2 :: sp2) (by simp at hsp ⊢; omega) ap' (buf ++ "?")
                  (gappend out (.cons a .nil)) hok'
                refine ⟨hrec.1, fun pa h => ?_⟩
                rw [hcnt] at h
                exact hrec.2 pa (by simpa using h)
              | rendered a r =>
                obtain ⟨isql, iargs, e⟩ := r
                have he : e = Option.none := hfree
                subst he
                have hstep : exprScan ('?' :: c2 :: sp2)
                    (.rendered a (isql, iargs, Option.none) :: ap') buf out =
                    exprScan (c2 :: sp2) ap' (buf ++ isql)
                      (gappend out iargs.elts) := by
                  simp [exprScan, hc2]
                rw [hstep]
                have hrec := ih (c2 :: sp2) (by simp at hsp ⊢; omega) ap' (buf ++ isql)
                  (gappend out iargs.elts) hok'
                refine ⟨hrec.1, fun pa h => ?_⟩
                rw [hcnt] at h
                exact hrec.2 pa (by simpa using h)
        · -- a plain text character
          have hstep : exprScan (c :: sp1) (pa0 :: ap') buf out =
              exprScan sp1 (pa0 :: ap') (buf ++ String.mk [c]) out := by
            simp [exprScan, hc]
          have hcnt : countUnesc (c :: sp1) = countUnesc sp1 := by
            simp [countUnesc, hc]
          rw [hstep]
          exact ih sp1 (by simp at hsp; omega) (pa0 :: ap') (buf ++ String.mk [c]) out
            (by rw [← hcnt]; exact hok) |>.imp id
            (fun hmem pa h => hmem pa (by rwa [hcnt] at h))

/-- Claim C10 (amended): a fragment-valued argument never matched to a
non-escaped marker (its position is at or beyond the number of
non-escaped markers — e.g. when the text holds only escaped `??` pairs,
or fewer markers than arguments) is appended to the output argument list
as the fragment value itself, un-rendered; and provided every *matched*
argument renders without error (vacuously so in the only-escaped-markers
case), `ToSQL` succeeds.  (Without that proviso the claim fails: a
matched argument's failure makes the whole render fail — see the
counterexample.) -/
theorem c10_unmatched_fragment_passthrough (sql : String) (l : ArgList) (f : Frag)
    (hmem : Arg.frag f ∈ l.toList.drop (countUnesc sql.data))
    (hok : ∀ g, Arg.frag g ∈ l.toList.take (countUnesc sql.data) →
      (fragToSQL g).2.2 = Option.none) :
    (fragToSQL (.expr sql (.someA l))).2.2 = Option.none ∧
    Arg.frag f ∈ ((fragToSQL (.expr sql (.someA l))).2.1).elts.toList := by
  have hfr : l.hasFrag = true :=
    hasFrag_of_mem l f (List.mem_of_mem_drop hmem)
  have hunf : fragToSQL (.expr sql (.someA l)) =
      exprScan sql.data (renderPre l) "" Option.none := by
    simp [fragToSQL, hfr]
  have hok' : ∀ pa ∈ (renderPre l).take (countUnesc sql.data), PreArg.errFree pa := by
    intro pa hpa
    rcases renderPre_mem l pa (List.mem_of_mem_take hpa) with ⟨v, rfl⟩ | ⟨g, rfl⟩
    · trivial
    · show (fragToSQL g).2.2 = Option.none
      apply hok g
      have : PreArg.arg (.rendered (.frag g) (fragToSQL g)) ∈
          ((renderPre l).take (countUnesc sql.data)).map PreArg.arg :=
        List.mem_map_of_mem _ hpa
      rwa [List.map_take, renderPre_map_arg] at this
  have hrec := exprScan_unmatched sql.data.length sql.data (Nat.le_refl _)
    (renderPre l) "" Option.none hok'
  refine ⟨hunf ▸ hrec.1, ?_⟩
  have hmem' : Arg.frag f ∈ ((renderPre l).drop (countUnesc sql.data)).map PreArg.arg := by
    rw [List.map_drop, renderPre_map_arg]
    exact hmem
  obtain ⟨pa, hpa, hpaeq⟩ := List.mem_map.mp hmem'
  rw [hunf]
  exact hpaeq ▸ hrec.2 pa hpa

/-- Witness for C10 (amended): `Expr("count(??)", Expr("x"))` — only an
escaped pair, so the fragment argument is never matched: the render
succeeds and the nested `Expr("x")` appears un-rendered in the output
argument list (the repository test `TestExprEscaped` pins this). -/
theorem c10_witness :
    (fragToSQL (.expr "count(??)"
        (.someA (.cons (.frag (.expr "x" .noneA)) .nil)))).2.2 = Option.none ∧
    Arg.frag (.expr "x" .noneA) ∈
      ((fragToSQL (.expr "count(??)"
        (.someA (.cons (.frag (.expr "x" .noneA)) .nil)))).2.1).elts.toList :=
  c10_unmatched_fragment_passthrough "count(??)"
    (.cons (.frag (.expr "x" .noneA)) .nil) (.expr "x" .noneA)
    (List.Mem.head _) (fun _ h => absurd h (List.not_mem_nil _))

end sq
